import Mathlib

/-!
Shallow embedding of the growable instance store of this repository
(`src/rgl/modules/vertex_buffer_inst.hpp`), of the vertex buffer layout
(`src/rgl/modules/vertex_buffer_layout.hpp`, `shader_data_type.hpp`) and of
the buffer-handle ownership operations (`src/rgl/modules/vertex_buffer.hpp`),
together with proofs about them.

Modelling conventions, fixed once for the whole file:

* Byte quantities (`capacity_`, strides, `size(U_Type)`) are `Nat`s measured
  in bytes, exactly as the C++ `std::size_t` values.  The instance counter
  `count_` is an `Int`, mirroring the C++ `std::int32_t` (no reachable store
  ever makes it negative, and no claim exercises counts near `2^31`, so
  two's-complement wrapping is not modelled).
* The contents of the native (OpenGL) buffer are modelled at `float`
  granularity, one abstract value (`Nat`) per 4-byte float slot, because
  every transfer in the source moves `std::span<const float>` data.  A byte
  offset `o` used by the source corresponds to float slot `o / 4`.
* The native buffer calls (`glBufferData`, `glBufferSubData`,
  `glMapBufferRange`, `glCopyBufferSubData`) are modelled by the plain
  allocate/write/read/copy contract the store assumes of its driver:
  a write lands at its offset, a mapped range reads the current contents,
  and `resize_buffer` preserves the stored bytes.  Driver error states are
  outside the embedded contract.
* `static_cast<size_t>(static_cast<double>(capacity) * std::numbers::phi)`
  is modelled bit-exactly: `phiMantissa / 2^52` is the IEEE-754 double
  nearest the golden ratio (`std::numbers::phi`), conversion of the operand
  and the product are rounded to nearest, ties to even, and the final cast
  truncates. All of it is executable `Nat` arithmetic.
-/

namespace rgl

/-- Round-to-nearest, ties-to-even integer division: the IEEE-754 rounding
of the rational `a / b` to an integer. -/
def rne (a b : Nat) : Nat :=
  let q := a / b
  let r := a % b
  if 2 * r < b then q
  else if b < 2 * r then q + 1
  else if q % 2 = 0 then q else q + 1

/-- Fuel-driven binary logarithm, `flog2Aux fuel n = ⌊log2 n⌋` whenever
`n ≤ fuel` and `1 ≤ n`.  (Written with fuel so that the kernel can evaluate
it; the core `Nat.log2` is defined by well-founded recursion.) -/
def flog2Aux : Nat → Nat → Nat
  | 0, _ => 0
  | fuel + 1, n => if n ≤ 1 then 0 else flog2Aux fuel (n / 2) + 1

/-- Floor of the binary logarithm of `n` (0 at 0). -/
def flog2 (n : Nat) : Nat := flog2Aux n n

/-- Mantissa numerator of the IEEE-754 double closest to the golden ratio:
`std::numbers::phi = phiMantissa / 2^52` (hex mantissa `0x19e3779b97f4a8`). -/
def phiMantissa : Nat := 7286977268806824

/-- The value of `2^52`, the denominator of `phiMantissa`. -/
def pow52 : Nat := 4503599627370496

/-- The value of `2^53`, the first integer boundary at which conversion of a
`size_t` to `double` becomes inexact. -/
def pow53 : Nat := 9007199254740992

/-- Result of `static_cast<double>(c)` for a `size_t` value `c`: exact below
`2^53`, rounded to 53 significant bits (nearest, ties to even) above. -/
def roundNat53 (c : Nat) : Nat :=
  if c < pow53 then c
  else
    let e := flog2 c
    rne c (2 ^ (e - 52)) * 2 ^ (e - 52)

/-- Bit-exact model of `static_cast<size_t>(static_cast<double>(c) *
std::numbers::phi)` for `1 ≤ c`: convert `c` to double, multiply by the
double `phiMantissa / 2^52` with round-to-nearest-even, truncate toward
zero. -/
def mulPhiTrunc (c : Nat) : Nat :=
  let num := roundNat53 c * phiMantissa
  let e := flog2 (num / pow52)
  let m := rne num (2 ^ e)
  m * 2 ^ e / pow52

/-- Embeds `VertexBufferInst::calc_capacity` (vertex_buffer_inst.hpp:71-85):
`s` is `instance_size()` (the layout stride in bytes) and `c` the current
capacity; capacity 0 grows to one record, capacity `s` to 32 records, and
any other capacity to the golden-ratio product computed in double
precision. -/
def calc_capacity (s c : Nat) : Nat :=
  if c = 0 then s
  else if c = s then 32 * s
  else mulPhiTrunc c

/-- State of a `VertexBufferInst`: the tracked byte capacity `capacity_`,
the `int32_t` instance counter `count_`, the layout stride in bytes
(`layout_.stride()`), and the native buffer contents, one abstract value per
4-byte float slot. -/
structure InstStore where
  capacity_ : Nat
  count_ : Int
  stride : Nat
  buf : Nat → Nat

/-- Accessor `instance_count()` (vertex_buffer_inst.hpp:158-161). -/
def instance_count (st : InstStore) : Int := st.count_

/-- Accessor `instance_size()` (vertex_buffer_inst.hpp:162-164): the layout
stride. -/
def instance_size (st : InstStore) : Nat := st.stride

/-- Accessor `capacity()` (vertex_buffer_inst.hpp:165-167). -/
def InstStore.capacity (st : InstStore) : Nat := st.capacity_

/-- Overwrite `data.length` consecutive float slots starting at slot `off`;
the model of one `glBufferSubData` call. -/
def bufWrite (buf : Nat → Nat) (off : Nat) (data : List Nat) : Nat → Nat :=
  fun i => if off ≤ i ∧ i < off + data.length then data.getD (i - off) 0 else buf i

/-- Read `len` consecutive float slots starting at slot `off`; the model of
reading a mapped buffer range. -/
def readSpan (buf : Nat → Nat) (off len : Nat) : List Nat :=
  (List.range len).map fun j => buf (off + j)

/-- The float values of record number `i`: the source addresses record `i`
at byte offset `i * stride` with `stride_elements() = stride / 4` floats. -/
def readRecord (st : InstStore) (i : Nat) : List Nat :=
  readSpan st.buf (i * st.stride / 4) (st.stride / 4)

/-- Embeds `VertexBufferInst::update_instance` (vertex_buffer_inst.hpp:
189-201): one `glBufferSubData` at byte offset
`index * instance_data.size_bytes()`, i.e. float slot `index * data.length`.
A negative index yields a negative byte offset, which the driver rejects
without writing. -/
def update_instance (st : InstStore) (index : Int) (data : List Nat) : InstStore :=
  if index < 0 then st
  else { st with buf := bufWrite st.buf (index.toNat * data.length) data }

/-- Embeds `VertexBufferInst::add_instance` (vertex_buffer_inst.hpp:
177-187): grow once through `calc_capacity` when
`(count_ + 1) * stride > capacity_` (`resize_buffer` preserves the stored
data), then `update_instance(count_, data)` and `count_++`. -/
def add_instance (st : InstStore) (data : List Nat) : InstStore :=
  let g := if st.capacity_ < (st.count_ + 1).toNat * st.stride then
             { st with capacity_ := calc_capacity st.stride st.capacity_ }
           else st
  let w := update_instance g g.count_ data
  { w with count_ := w.count_ + 1 }

/-- Embeds `VertexBufferInst::delete_instance` (vertex_buffer_inst.hpp:
203-233): an out-of-range index returns `count_` unchanged; otherwise the
last record (mapped at byte offset `(count_ - 1) * stride`, read as
`stride / 4` floats) is written over record `index`, `count_` is
decremented, and `index` is returned. -/
def delete_instance (st : InstStore) (index : Int) : InstStore × Int :=
  if st.count_ ≤ index ∨ index < 0 then (st, st.count_)
  else
    let last := readSpan st.buf ((st.count_ - 1).toNat * st.stride / 4) (st.stride / 4)
    let w := update_instance st index last
    ({ w with count_ := w.count_ - 1 }, index)

/-- Embeds the `VertexBufferInst` constructor (vertex_buffer_inst.hpp:
133-140): the base class allocates `4 * data.length` bytes
(`vertices.size_bytes()`, vertex_buffer.hpp:177-185) holding `data`, while
`capacity_` is initialised with `instance_data.size()` (the float count) and
`count_` stays value-initialised at 0. -/
def mkInstStore (data : List Nat) (s : Nat) : InstStore :=
  { capacity_ := data.length, count_ := 0, stride := s, buf := fun i => data.getD i 0 }

/-- Byte size of the native allocation made by the constructor: the base
class passes `vertices.size_bytes() = 4 * vertices.size()` to
`glBufferData` (vertex_buffer.hpp:183). -/
def glAllocationBytes (data : List Nat) : Nat := 4 * data.length

/-- Fold a sequence of `add_instance` calls over a store. -/
def addSeq (st : InstStore) (ds : List (List Nat)) : InstStore :=
  ds.foldl add_instance st

/-- Embeds `rgl::shader_data_type::U_Type` (shader_data_type.hpp:44-51). -/
inductive U_Type
  | f32 | vec2 | vec3 | vec4 | mat3 | mat4
deriving DecidableEq

instance : Inhabited U_Type := ⟨U_Type.f32⟩

/-- Embeds `rgl::shader_data_type::size` (shader_data_type.hpp:60-76), with
`sizeof(float) = 4`; `mat3` is internally padded to three `vec4`s. -/
def shader_data_type.size : U_Type → Nat
  | .f32 => 4
  | .vec2 => 8
  | .vec3 => 12
  | .vec4 => 16
  | .mat3 => 48
  | .mat4 => 64

/-- Embeds `rgl::VertexAttribute` (vertex_buffer_layout.hpp:21-46): type,
debug name, byte offset (assigned by the layout constructor) and repeat
count (1 unless the array constructor is used). -/
structure VertexAttribute where
  type : U_Type
  name : String
  offset : Nat := 0
  element_count : Nat := 1
deriving DecidableEq

instance : Inhabited VertexAttribute := ⟨{ type := .f32, name := "" }⟩

/-- The attribute-list constructor `VertexAttribute(type, name)`
(vertex_buffer_layout.hpp:30-32): offset 0, element count 1. -/
def mkAttr (t : U_Type) (n : String) : VertexAttribute :=
  { type := t, name := n }

/-- One pass of the `VertexBufferLayout` constructor loop
(vertex_buffer_layout.hpp:73-80): each attribute receives the running
stride as its offset, then the running stride advances by
`size(type) * element_count`.  Returns the final stride and the rewritten
attribute list. -/
def assignOffsets (acc : Nat) : List VertexAttribute → Nat × List VertexAttribute
  | [] => (acc, [])
  | a :: rest =>
      let p := assignOffsets (acc + shader_data_type.size a.type * a.element_count) rest
      (p.1, { a with offset := acc } :: p.2)

/-- Embeds `rgl::VertexBufferLayout` (vertex_buffer_layout.hpp:60-123):
the frozen stride `m_stride` and the attribute vector `m_attributes`. -/
structure VertexBufferLayout where
  m_stride : Nat
  m_attributes : List VertexAttribute

/-- The `VertexBufferLayout(initializer_list)` constructor. -/
def mkLayout (attrs : List VertexAttribute) : VertexBufferLayout :=
  let p := assignOffsets 0 attrs
  { m_stride := p.1, m_attributes := p.2 }

/-- Accessor `stride()` (vertex_buffer_layout.hpp:87-89). -/
def VertexBufferLayout.stride (l : VertexBufferLayout) : Nat := l.m_stride

/-- Accessor `stride_elements()` (vertex_buffer_layout.hpp:97-100):
`m_stride / sizeof(float)` in integer division. -/
def VertexBufferLayout.stride_elements (l : VertexBufferLayout) : Nat := l.m_stride / 4

/-- Accessor `operator[]` (vertex_buffer_layout.hpp:119-122), the lookup of
an attribute by position (unchecked in the source; out-of-range reads are
undefined there and default-valued here). -/
def VertexBufferLayout.attrAt (l : VertexBufferLayout) (i : Nat) : VertexAttribute :=
  l.m_attributes.getD i default

/-- Total byte size that a field list contributes, field by field: the
reference value for the layout stride. -/
def layoutBytes (attrs : List VertexAttribute) : Nat :=
  (attrs.map fun a => shader_data_type.size a.type * a.element_count).sum

/-- Ownership state of a `VertexBuffer` (vertex_buffer.hpp:166-169): the
native handle `id_` (0 = inert, owning no resource) and the layout. -/
structure VertexBuffer where
  id_ : Nat
  layout_ : VertexBufferLayout

/-- Embeds the move constructor (vertex_buffer.hpp:205-209): returns the
constructed destination and the emptied source, whose handle becomes 0. -/
def VertexBuffer.moveFrom (other : VertexBuffer) : VertexBuffer × VertexBuffer :=
  ({ id_ := other.id_, layout_ := other.layout_ }, { other with id_ := 0 })

/-- Embeds move assignment between two distinct objects (vertex_buffer.hpp:
211-222): the destination's previous handle is released
(`glDeleteBuffers`, a no-op on 0), the source's handle and layout are
taken, and the source handle is set to 0.  Returns the new destination, the
emptied source, and the handle released by the assignment, if any. -/
def VertexBuffer.moveAssign (dst other : VertexBuffer) :
    VertexBuffer × VertexBuffer × Option Nat :=
  ({ id_ := other.id_, layout_ := other.layout_ },
   { other with id_ := 0 },
   if dst.id_ = 0 then none else some dst.id_)

/-- Embeds the destructor (vertex_buffer.hpp:199-203): the handle it
releases, `none` when `id_` is 0.  (`~VertexBufferInst` is defaulted and
adds nothing, vertex_buffer_inst.hpp:142.) -/
def VertexBuffer.destructorReleases (v : VertexBuffer) : Option Nat :=
  if v.id_ = 0 then none else some v.id_

/-- Concrete three-record store with a 20-byte stride (records of five
floats): record 0 is `[0,1,2,3,4]`, record 1 is `[5,6,7,8,9]`, record 2 is
`[10,11,12,13,14]`. -/
def exStore3 : InstStore :=
  { capacity_ := 60, count_ := 3, stride := 20, buf := fun i => i }

/-- Concrete initial data of ten floats (forty bytes), two whole records
for a 20-byte stride. -/
def exInit10 : List Nat := [1, 2, 3, 4, 5, 6, 7, 8, 9, 10]

/-- Concrete layout field list of the specification example: a `vec3`
field "pos" followed by a `vec2` field "uv". -/
def exPosUv : List VertexAttribute := [mkAttr U_Type.vec3 "pos", mkAttr U_Type.vec2 "uv"]

/-- Strengthened invariant used for the growth analysis of `add_instance`
from an empty start: the count is non-negative, the live bytes fit the
tracked capacity, a zero capacity can only carry a zero count (or a zero
stride, in which case the guard never fires), and the capacity is one of
the values the growth policy produces: 0, one record, or at least 32
records. -/
def GrowInv (st : InstStore) : Prop :=
  0 ≤ st.count_ ∧
  st.count_.toNat * st.stride ≤ st.capacity_ ∧
  (st.capacity_ = 0 → st.count_ = 0 ∨ st.stride = 0) ∧
  (st.capacity_ = 0 ∨ st.capacity_ = st.stride ∨ 32 * st.stride ≤ st.capacity_)

/-!
Supporting lemmas about the buffer model.
-/

theorem readSpan_length (buf : Nat → Nat) (off len : Nat) :
    (readSpan buf off len).length = len := by
  simp [readSpan]

theorem readSpan_bufWrite (buf : Nat → Nat) (off : Nat) (data : List Nat) :
    readSpan (bufWrite buf off data) off data.length = data := by
  apply List.ext_getElem
  · simp [readSpan]
  · intro i h1 h2
    simp only [readSpan, bufWrite, List.getElem_map, List.getElem_range]
    rw [if_pos (by omega)]
    rw [Nat.add_sub_cancel_left]
    exact List.getD_eq_getElem data 0 h2

theorem readSpan_bufWrite' (buf : Nat → Nat) (off len : Nat) (data : List Nat)
    (h : len = data.length) :
    readSpan (bufWrite buf off data) off len = data := by
  subst h
  exact readSpan_bufWrite buf off data

theorem bufWrite_readSpan (buf : Nat → Nat) (off len : Nat) :
    bufWrite buf off (readSpan buf off len) = buf := by
  funext i
  unfold bufWrite
  rw [readSpan_length]
  by_cases h : off ≤ i ∧ i < off + len
  · rw [if_pos h]
    have hi : i - off < len := by omega
    have : (readSpan buf off len).getD (i - off) 0 = buf (off + (i - off)) := by
      rw [List.getD_eq_getElem _ 0 (by simpa [readSpan_length] using hi)]
      simp [readSpan]
    rw [this]
    congr 1
    omega
  · rw [if_neg h]

theorem update_instance_capacity (st : InstStore) (index : Int) (data : List Nat) :
    (update_instance st index data).capacity_ = st.capacity_ := by
  unfold update_instance; split <;> rfl

theorem update_instance_count (st : InstStore) (index : Int) (data : List Nat) :
    (update_instance st index data).count_ = st.count_ := by
  unfold update_instance; split <;> rfl

theorem update_instance_stride (st : InstStore) (index : Int) (data : List Nat) :
    (update_instance st index data).stride = st.stride := by
  unfold update_instance; split <;> rfl

/-!
Claim theorems.
-/

/-- C5: for every store and every index that is negative or at least
`count_`, `delete_instance` is a no-op — the store (count, capacity and all
buffer contents) is returned unchanged together with the prior count. -/
theorem delete_instance_out_of_range (st : InstStore) (index : Int)
    (h : index < 0 ∨ st.count_ ≤ index) :
    delete_instance st index = (st, st.count_) := by
  unfold delete_instance
  rw [if_pos (by tauto)]

/-- Witness for C5: on the concrete three-record store, `delete_instance`
at index `-1` returns the store unchanged with the prior count 3. -/
theorem delete_instance_out_of_range_witness :
    delete_instance exStore3 (-1) = (exStore3, 3) := by
  have h := delete_instance_out_of_range exStore3 (-1) (Or.inl (by decide))
  rw [h]
  rfl

/-- Shape of an in-range `delete_instance`: the last record is read at byte
offset `(count_ - 1) * stride`, written over record `index` at float offset
`index * stride_elements()`, and the count drops by one. -/
theorem delete_instance_in_range (st : InstStore) (index : Int)
    (h0 : 0 ≤ index) (hc : index < st.count_) :
    delete_instance st index =
      ({ capacity_ := st.capacity_, count_ := st.count_ - 1, stride := st.stride,
         buf := bufWrite st.buf (index.toNat * (st.stride / 4))
             (readSpan st.buf ((st.count_ - 1).toNat * st.stride / 4) (st.stride / 4)) },
       index) := by
  simp only [delete_instance, update_instance, readSpan_length]
  rw [if_neg (by omega), if_neg (by omega)]

/-- C6: writing a full record with `update_instance i data` (with
`4 * data.length = stride`, i.e. `data.size_bytes() == instance_size()`)
and reading record `i` back returns exactly `data`; capacity, count and
stride are untouched (the write is in place, no resize). -/
theorem update_instance_round_trip (st : InstStore) (i : Int) (data : List Nat)
    (h0 : 0 ≤ i) (_hc : i < st.count_) (hlen : 4 * data.length = st.stride) :
    readRecord (update_instance st i data) i.toNat = data ∧
    (update_instance st i data).capacity_ = st.capacity_ ∧
    (update_instance st i data).count_ = st.count_ ∧
    (update_instance st i data).stride = st.stride := by
  refine ⟨?_, update_instance_capacity .., update_instance_count ..,
    update_instance_stride ..⟩
  unfold update_instance
  rw [if_neg (by omega)]
  show readSpan (bufWrite st.buf (i.toNat * data.length) data)
      (i.toNat * st.stride / 4) (st.stride / 4) = data
  have h4 : i.toNat * st.stride / 4 = i.toNat * data.length := by
    rw [← hlen, show i.toNat * (4 * data.length) = 4 * (i.toNat * data.length) by ring,
      Nat.mul_div_cancel_left _ (by norm_num)]
  have h5 : st.stride / 4 = data.length := by omega
  rw [h4, h5]
  exact readSpan_bufWrite st.buf _ data

/-- Witness for C6: on the concrete three-record store, overwriting record
1 with `[20,21,22,23,24]` and reading record 1 back yields exactly that
record, with capacity, count and stride unchanged. -/
theorem update_instance_round_trip_witness :
    readRecord (update_instance exStore3 1 [20, 21, 22, 23, 24]) (1 : Int).toNat =
      [20, 21, 22, 23, 24] ∧
    (update_instance exStore3 1 [20, 21, 22, 23, 24]).capacity_ = exStore3.capacity_ ∧
    (update_instance exStore3 1 [20, 21, 22, 23, 24]).count_ = exStore3.count_ ∧
    (update_instance exStore3 1 [20, 21, 22, 23, 24]).stride = exStore3.stride :=
  update_instance_round_trip exStore3 1 [20, 21, 22, 23, 24]
    (by decide) (by decide) (by decide)

/-- C2: for every store and every in-range index, `delete_instance index`
returns `index`, decrements the count by one, and record `index` of the
resulting store holds the bytes that record `count - 1` (the last live
record) held before the call.  (`4 ∣ stride` holds for every
layout-described record, since each `shader_data_type` size is a multiple
of `sizeof(float)`.) -/
theorem delete_instance_swaps_last (st : InstStore) (index : Int)
    (h0 : 0 ≤ index) (hc : index < st.count_) (h4 : 4 ∣ st.stride) :
    (delete_instance st index).2 = index ∧
    (delete_instance st index).1.count_ = st.count_ - 1 ∧
    (delete_instance st index).1.capacity_ = st.capacity_ ∧
    readRecord (delete_instance st index).1 index.toNat =
      readRecord st (st.count_ - 1).toNat := by
  rw [delete_instance_in_range st index h0 hc]
  obtain ⟨L, hL⟩ := h4
  refine ⟨rfl, rfl, rfl, ?_⟩
  unfold readRecord
  show readSpan (bufWrite st.buf (index.toNat * (st.stride / 4)) _)
      (index.toNat * st.stride / 4) (st.stride / 4) = _
  have hdiv : index.toNat * st.stride / 4 = index.toNat * (st.stride / 4) := by
    rw [hL, show index.toNat * (4 * L) = 4 * (index.toNat * L) by ring,
      Nat.mul_div_cancel_left _ (by norm_num), Nat.mul_div_cancel_left _ (by norm_num)]
  rw [hdiv]
  exact readSpan_bufWrite' st.buf _ _ _ (readSpan_length ..).symm

/-- Witness for C2 (the specification's swap-delete law): on the concrete
store holding records `[0..4]`, `[5..9]`, `[10..14]`, `delete_instance 0`
returns 0, leaves count 2, and record 0 now holds the former record 2. -/
theorem delete_instance_swaps_last_witness :
    (delete_instance exStore3 0).2 = 0 ∧
    (delete_instance exStore3 0).1.count_ = 2 ∧
    readRecord (delete_instance exStore3 0).1 (0 : Int).toNat =
      [10, 11, 12, 13, 14] := by
  have h := delete_instance_swaps_last exStore3 0 (by decide) (by decide) (by decide)
  exact ⟨h.1, h.2.1.trans (by decide), (h.2.2.2).trans (by decide)⟩

/-- C10: deleting the last live record is well defined: `delete_instance
(count - 1)` copies the last record onto itself (the buffer contents are
unchanged as a whole), decrements the count, returns `count - 1`, and every
remaining record `0 .. count-2` is untouched. -/
theorem delete_instance_last (st : InstStore) (h1 : 1 ≤ st.count_)
    (h4 : 4 ∣ st.stride) :
    (delete_instance st (st.count_ - 1)).2 = st.count_ - 1 ∧
    (delete_instance st (st.count_ - 1)).1.count_ = st.count_ - 1 ∧
    (delete_instance st (st.count_ - 1)).1.buf = st.buf ∧
    ∀ j : Nat, (j : Int) < st.count_ - 1 →
      readRecord (delete_instance st (st.count_ - 1)).1 j = readRecord st j := by
  obtain ⟨L, hL⟩ := h4
  rw [delete_instance_in_range st (st.count_ - 1) (by omega) (by omega)]
  have hdiv : (st.count_ - 1).toNat * st.stride / 4 =
      (st.count_ - 1).toNat * (st.stride / 4) := by
    rw [hL, show (st.count_ - 1).toNat * (4 * L) = 4 * ((st.count_ - 1).toNat * L) by ring,
      Nat.mul_div_cancel_left _ (by norm_num), Nat.mul_div_cancel_left _ (by norm_num)]
  have hbuf : bufWrite st.buf ((st.count_ - 1).toNat * (st.stride / 4))
      (readSpan st.buf ((st.count_ - 1).toNat * st.stride / 4) (st.stride / 4)) = st.buf := by
    rw [hdiv]
    exact bufWrite_readSpan st.buf _ _
  refine ⟨rfl, rfl, hbuf, ?_⟩
  intro j _
  unfold readRecord
  rw [hbuf]

/-- Witness for C10: on the concrete three-record store, deleting record 2
(the last) returns 2, leaves count 2, the whole buffer unchanged, and in
particular record 0 unchanged. -/
theorem delete_instance_last_witness :
    (delete_instance exStore3 (exStore3.count_ - 1)).2 = exStore3.count_ - 1 ∧
    (delete_instance exStore3 (exStore3.count_ - 1)).1.count_ = exStore3.count_ - 1 ∧
    (delete_instance exStore3 (exStore3.count_ - 1)).1.buf = exStore3.buf ∧
    readRecord (delete_instance exStore3 (exStore3.count_ - 1)).1 0 =
      readRecord exStore3 0 := by
  have h := delete_instance_last exStore3 (by decide) (by decide)
  exact ⟨h.1, h.2.1, h.2.2.1, h.2.2.2 0 (by decide)⟩

/-- C4 (code evaluated at the failing input): constructing a store from ten
floats (forty bytes of initial data, two whole records of the 20-byte
stride) allocates a 40-byte native buffer, yet `capacity()` reports 10 —
the float count, not the byte size of the allocation (`capacity_` is
documented as bytes and compared against byte sizes by `add_instance`) —
and `instance_count()` reports 0 rather than 2, although the class
documentation offers initial data as a substitute for repeated
`add_instance` calls. -/
theorem ctor_capacity_count_bug :
    glAllocationBytes exInit10 = 40 ∧
    (mkInstStore exInit10 20).capacity_ = 10 ∧
    (mkInstStore exInit10 20).count_ = 0 := by
  refine ⟨rfl, rfl, rfl⟩

/-!
Supporting lemmas about the model of IEEE-754 double arithmetic.
-/

theorem rne_close (a b : Nat) (hb : 0 < b) :
    2 * a ≤ 2 * (rne a b * b) + b ∧ 2 * (rne a b * b) ≤ 2 * a + b := by
  have hqr : a / b * b + a % b = a := by
    rw [Nat.mul_comm]
    exact Nat.div_add_mod a b
  have hrb : a % b < b := Nat.mod_lt a hb
  simp only [rne]
  by_cases h1 : 2 * (a % b) < b
  · rw [if_pos h1]
    set t := a / b * b with ht
    omega
  · rw [if_neg h1]
    by_cases h2 : b < 2 * (a % b)
    · rw [if_pos h2, Nat.add_mul, Nat.one_mul]
      set t := a / b * b with ht
      omega
    · rw [if_neg h2]
      by_cases h3 : a / b % 2 = 0
      · rw [if_pos h3]
        set t := a / b * b with ht
        omega
      · rw [if_neg h3, Nat.add_mul, Nat.one_mul]
        set t := a / b * b with ht
        omega

theorem rne_lb (a b : Nat) (hb : 0 < b) : a < rne a b * b + b := by
  have h := (rne_close a b hb).1
  have h2 : 0 < b := hb
  set x := rne a b * b with hx
  omega

theorem rne_ub (a b : Nat) (hb : 0 < b) : rne a b * b ≤ a + b := by
  have h := (rne_close a b hb).2
  set x := rne a b * b with hx
  omega

theorem flog2Aux_spec (fuel : Nat) : ∀ n : Nat, 1 ≤ n → n ≤ fuel →
    2 ^ flog2Aux fuel n ≤ n ∧ n < 2 ^ (flog2Aux fuel n + 1) := by
  induction fuel with
  | zero => intro n h1 h2; omega
  | succ fuel ih =>
    intro n h1 h2
    simp only [flog2Aux]
    by_cases hn : n ≤ 1
    · rw [if_pos hn]
      constructor <;> simp <;> omega
    · rw [if_neg hn]
      obtain ⟨l1, l2⟩ := ih (n / 2) (by omega) (by omega)
      rw [pow_succ, pow_succ]
      set a := 2 ^ flog2Aux fuel (n / 2) with ha
      constructor <;> omega

theorem flog2_spec (n : Nat) (h : 1 ≤ n) :
    2 ^ flog2 n ≤ n ∧ n < 2 ^ (flog2 n + 1) :=
  flog2Aux_spec n n h le_rfl

theorem roundNat53_lb (c : Nat) : c - c / 4503599627370496 ≤ roundNat53 c := by
  simp only [roundNat53, pow53]
  by_cases hc : c < 9007199254740992
  · rw [if_pos hc]
    omega
  · rw [if_neg hc]
    obtain ⟨hf1, hf2⟩ := flog2_spec c (by omega)
    have he53 : 53 ≤ flog2 c := by
      by_contra hlt
      have : 2 ^ (flog2 c + 1) ≤ 2 ^ 53 := Nat.pow_le_pow_right (by norm_num) (by omega)
      have h53 : (2 : Nat) ^ 53 = 9007199254740992 := by norm_num
      omega
    have hbpos : 0 < 2 ^ (flog2 c - 52) := Nat.pos_pow_of_pos _ (by norm_num)
    have hbP : 2 ^ (flog2 c - 52) * 4503599627370496 ≤ c := by
      have : 2 ^ (flog2 c - 52) * 4503599627370496 = 2 ^ flog2 c := by
        rw [show (4503599627370496 : Nat) = 2 ^ 52 by norm_num, ← pow_add]
        congr 1
        omega
      omega
    have hrl := rne_lb c (2 ^ (flog2 c - 52)) hbpos
    set b := 2 ^ (flog2 c - 52) with hbdef
    set x := rne c b * b with hxdef
    omega

theorem roundNat53_ub (c : Nat) : roundNat53 c ≤ c + c / 4503599627370496 := by
  simp only [roundNat53, pow53]
  by_cases hc : c < 9007199254740992
  · rw [if_pos hc]
    omega
  · rw [if_neg hc]
    obtain ⟨hf1, hf2⟩ := flog2_spec c (by omega)
    have he53 : 53 ≤ flog2 c := by
      by_contra hlt
      have : 2 ^ (flog2 c + 1) ≤ 2 ^ 53 := Nat.pow_le_pow_right (by norm_num) (by omega)
      have h53 : (2 : Nat) ^ 53 = 9007199254740992 := by norm_num
      omega
    have hbpos : 0 < 2 ^ (flog2 c - 52) := Nat.pos_pow_of_pos _ (by norm_num)
    have hbP : 2 ^ (flog2 c - 52) * 4503599627370496 ≤ c := by
      have : 2 ^ (flog2 c - 52) * 4503599627370496 = 2 ^ flog2 c := by
        rw [show (4503599627370496 : Nat) = 2 ^ 52 by norm_num, ← pow_add]
        congr 1
        omega
      omega
    have hru := rne_ub c (2 ^ (flog2 c - 52)) hbpos
    set b := 2 ^ (flog2 c - 52) with hbdef
    set x := rne c b * b with hxdef
    omega

/-- Lower bound on the double-precision golden-ratio growth: from at least
32 records' worth of capacity, one growth step gains at least one record.
The computed product is at least `capacity * phi` up to one unit in the
last place, far above `capacity + stride` at this size. -/
theorem mulPhiTrunc_grow (c s : Nat) (hs : 1 ≤ s) (hc : 32 * s ≤ c) :
    c + s ≤ mulPhiTrunc c := by
  have hlb := roundNat53_lb c
  have hub := roundNat53_ub c
  have hres : mulPhiTrunc c =
      rne (roundNat53 c * 7286977268806824)
          (2 ^ flog2 (roundNat53 c * 7286977268806824 / 4503599627370496)) *
        2 ^ flog2 (roundNat53 c * 7286977268806824 / 4503599627370496) /
        4503599627370496 := by
    simp only [mulPhiTrunc, phiMantissa, pow52]
  set cd := roundNat53 c with hcd
  have hcd1 : 1 ≤ cd := by omega
  have hK1 : 1 ≤ cd * 7286977268806824 / 4503599627370496 := by
    have : 4503599627370496 ≤ cd * 7286977268806824 := by omega
    omega
  obtain ⟨hf1, hf2⟩ := flog2_spec (cd * 7286977268806824 / 4503599627370496) hK1
  have hbpos : 0 < 2 ^ flog2 (cd * 7286977268806824 / 4503599627370496) :=
    Nat.pos_pow_of_pos _ (by norm_num)
  have hbP : 2 ^ flog2 (cd * 7286977268806824 / 4503599627370496) * 4503599627370496 ≤
      cd * 7286977268806824 :=
    (Nat.le_div_iff_mul_le (by norm_num)).mp hf1
  have hrl := rne_lb (cd * 7286977268806824)
    (2 ^ flog2 (cd * 7286977268806824 / 4503599627370496)) hbpos
  rw [hres, Nat.le_div_iff_mul_le (show 0 < (4503599627370496 : Nat) by norm_num)]
  set b := 2 ^ flog2 (cd * 7286977268806824 / 4503599627370496) with hbdef
  set x := rne (cd * 7286977268806824) b * b with hxdef
  omega

theorem assignOffsets_fst (acc : Nat) (attrs : List VertexAttribute) :
    (assignOffsets acc attrs).1 = acc + layoutBytes attrs := by
  induction attrs generalizing acc with
  | nil => simp [assignOffsets, layoutBytes]
  | cons a rest ih =>
    simp only [assignOffsets, layoutBytes, List.map_cons, List.sum_cons]
    rw [ih]
    simp only [layoutBytes]
    omega

theorem assignOffsets_getD (acc : Nat) (attrs : List VertexAttribute) (i : Nat)
    (h : i < attrs.length) :
    ((assignOffsets acc attrs).2.getD i default).offset = acc + layoutBytes (attrs.take i) := by
  induction attrs generalizing acc i with
  | nil => simp at h
  | cons a rest ih =>
    cases i with
    | zero => simp [assignOffsets, layoutBytes]
    | succ n =>
      simp only [assignOffsets, List.getD_cons_succ, List.take_succ_cons, layoutBytes,
        List.map_cons, List.sum_cons]
      rw [ih _ n (by simpa using h)]
      simp only [layoutBytes]
      omega

/-- C7: a layout built from an ordered field list is packed: its stride is
the sum over the fields of `size(kind) * element_count`, and the byte
offset of field `i` is the total byte size of the fields before it; in
particular the example layout `[(vec3, "pos"), (vec2, "uv")]` has stride
20, "pos" at offset 0 and "uv" at offset 12. -/
theorem layout_packed (attrs : List VertexAttribute) (i : Nat) (h : i < attrs.length) :
    (mkLayout attrs).stride = layoutBytes attrs ∧
    ((mkLayout attrs).attrAt i).offset = layoutBytes (attrs.take i) ∧
    (mkLayout exPosUv).stride = 20 ∧
    ((mkLayout exPosUv).attrAt 0).offset = 0 ∧
    ((mkLayout exPosUv).attrAt 1).offset = 12 := by
  refine ⟨?_, ?_, by decide, by decide, by decide⟩
  · simp only [mkLayout, VertexBufferLayout.stride]
    rw [assignOffsets_fst]
    omega
  · simp only [mkLayout, VertexBufferLayout.attrAt]
    rw [assignOffsets_getD 0 attrs i h]
    omega

/-- Witness for C7, at the example field list and field index 1. -/
theorem layout_packed_witness :
    (mkLayout exPosUv).stride = layoutBytes exPosUv ∧
    ((mkLayout exPosUv).attrAt 1).offset = layoutBytes (exPosUv.take 1) ∧
    (mkLayout exPosUv).stride = 20 ∧
    ((mkLayout exPosUv).attrAt 0).offset = 0 ∧
    ((mkLayout exPosUv).attrAt 1).offset = 12 :=
  layout_packed exPosUv 1 (by decide)

/-- Every layout stride is a multiple of `sizeof(float)`: each
`shader_data_type` size is, and the stride is a sum of such sizes; this
discharges the `4 ∣ stride` hypotheses above for every layout-built
store. -/
theorem layout_stride_mul_four (attrs : List VertexAttribute) :
    4 ∣ (mkLayout attrs).stride := by
  simp only [mkLayout, VertexBufferLayout.stride]
  rw [assignOffsets_fst, Nat.zero_add]
  induction attrs with
  | nil => simp [layoutBytes]
  | cons a rest ih =>
    simp only [layoutBytes, List.map_cons, List.sum_cons]
    refine Nat.dvd_add (Dvd.dvd.mul_right ?_ _) ih
    cases a.type <;> decide

theorem sqrt5_lo : ((20140709820486302 : ℝ) / 9007199254740992) ≤ Real.sqrt 5 := by
  rw [Real.le_sqrt (by positivity) (by norm_num)]
  norm_num

theorem sqrt5_hi : Real.sqrt 5 ≤ ((20140709820486306 : ℝ) / 9007199254740992) := by
  have h5 : (5 : ℝ) ≤ ((20140709820486306 : ℝ) / 9007199254740992) ^ 2 := by norm_num
  calc Real.sqrt 5 ≤ Real.sqrt (((20140709820486306 : ℝ) / 9007199254740992) ^ 2) :=
        Real.sqrt_le_sqrt h5
    _ = (20140709820486306 : ℝ) / 9007199254740992 := Real.sqrt_sq (by positivity)

/-- The dyadic `phiMantissa / 2^52` is within half an ulp of the golden
ratio: it is the value of the C++ constant `std::numbers::phi`. -/
theorem phiMantissa_close :
    |(7286977268806824 : ℝ) / 4503599627370496 - goldenRatio| ≤ 1 / 9007199254740992 := by
  have h1 := sqrt5_lo
  have h2 := sqrt5_hi
  have hg : goldenRatio = (1 + Real.sqrt 5) / 2 := rfl
  rw [hg, abs_le]
  constructor <;> linarith

theorem floor_dist (x y : ℝ) (h : |x - y| < 1) : |⌊x⌋ - ⌊y⌋| ≤ 1 := by
  rw [abs_lt] at h
  have h1 : ⌊x⌋ ≤ ⌊y⌋ + 1 := by
    have hxy : x ≤ y + 1 := by linarith
    calc ⌊x⌋ ≤ ⌊y + 1⌋ := Int.floor_le_floor hxy
      _ = ⌊y⌋ + 1 := Int.floor_add_one y
  have h2 : ⌊y⌋ ≤ ⌊x⌋ + 1 := by
    have hyx : y ≤ x + 1 := by linarith
    calc ⌊y⌋ ≤ ⌊x + 1⌋ := Int.floor_le_floor hyx
      _ = ⌊x⌋ + 1 := Int.floor_add_one x
  rw [abs_le]
  omega

/-- The exact golden-ratio floor `⌊c * φ⌋`, certified by an integer square
root witness `t = ⌊√(5 c²)⌋`: it equals `(c + t) / 2`. -/
theorem golden_floor_eq (c t : Nat) (h1 : t * t ≤ 5 * (c * c))
    (h2 : 5 * (c * c) < (t + 1) * (t + 1)) :
    ⌊((c : ℕ) : ℝ) * goldenRatio⌋ = (((c + t) / 2 : ℕ) : ℤ) := by
  have hg : goldenRatio = (1 + Real.sqrt 5) / 2 := rfl
  have hsq : Real.sqrt (5 * ((c : ℝ) * c)) = Real.sqrt 5 * c := by
    rw [Real.sqrt_mul (by norm_num) ((c : ℝ) * c), Real.sqrt_mul_self (by positivity)]
  have hlo : (t : ℝ) ≤ Real.sqrt 5 * c := by
    rw [← hsq, Real.le_sqrt (by positivity) (by positivity), sq]
    exact_mod_cast h1
  have hhi : Real.sqrt 5 * c < (t : ℝ) + 1 := by
    rw [← hsq, Real.sqrt_lt' (by positivity), sq]
    exact_mod_cast h2
  rw [Int.floor_eq_iff]
  constructor
  · have hq : ((c + t) / 2 : ℕ) * 2 ≤ c + t := Nat.div_mul_le_self _ 2
    have hqR : (((c + t) / 2 : ℕ) : ℝ) * 2 ≤ (c : ℝ) + t := by exact_mod_cast hq
    rw [hg, Int.cast_natCast]
    linarith
  · have hq2 : c + t ≤ ((c + t) / 2 : ℕ) * 2 + 1 := by omega
    have hqR : (c : ℝ) + t ≤ (((c + t) / 2 : ℕ) : ℝ) * 2 + 1 := by exact_mod_cast hq2
    rw [hg, Int.cast_natCast]
    linarith

/-- The double-precision product `trunc((double)c * phi)` is within one
unit of the exact `⌊c * φ⌋` for every `c ≤ 2^51` (the operand converts
exactly and the accumulated representation and rounding error stays below
one). -/
theorem mulPhiTrunc_near (c : Nat) (hc1 : 1 ≤ c) (hc2 : c ≤ 2 ^ 51) :
    |(mulPhiTrunc c : ℤ) - ⌊((c : ℕ) : ℝ) * goldenRatio⌋| ≤ 1 := by
  have hc51 : c ≤ 2251799813685248 := by
    have : (2 : Nat) ^ 51 = 2251799813685248 := by norm_num
    omega
  have hcd : roundNat53 c = c := by
    simp only [roundNat53, pow53]
    rw [if_pos (by omega)]
  have hres : mulPhiTrunc c =
      rne (c * 7286977268806824)
          (2 ^ flog2 (c * 7286977268806824 / 4503599627370496)) *
        2 ^ flog2 (c * 7286977268806824 / 4503599627370496) / 4503599627370496 := by
    simp only [mulPhiTrunc, phiMantissa, pow52, hcd]
  have hK1 : 1 ≤ c * 7286977268806824 / 4503599627370496 := by omega
  obtain ⟨hf1, hf2⟩ := flog2_spec _ hK1
  have hbpos : 0 < 2 ^ flog2 (c * 7286977268806824 / 4503599627370496) :=
    Nat.pos_pow_of_pos _ (by norm_num)
  have hbP : 2 ^ flog2 (c * 7286977268806824 / 4503599627370496) * 4503599627370496 ≤
      c * 7286977268806824 :=
    (Nat.le_div_iff_mul_le (by norm_num)).mp hf1
  have hrc := rne_close (c * 7286977268806824)
    (2 ^ flog2 (c * 7286977268806824 / 4503599627370496)) hbpos
  set b := (2 : Nat) ^ flog2 (c * 7286977268806824 / 4503599627370496) with hbdef
  set m := rne (c * 7286977268806824) b with hmdef
  set R := m * b / 4503599627370496 with hRdef
  have hdiv12 : R * 4503599627370496 ≤ m * b ∧ m * b < (R + 1) * 4503599627370496 := by
    set y := m * b with hy
    omega
  obtain ⟨hdiv1, hdiv2⟩ := hdiv12
  set x : ℝ := ((m * b : Nat) : ℝ) / 4503599627370496 with hxdef
  have hfl : ⌊x⌋ = (R : ℤ) := by
    rw [Int.floor_eq_iff]
    constructor
    · rw [hxdef, le_div_iff₀ (by norm_num)]
      exact_mod_cast hdiv1
    · rw [hxdef, div_lt_iff₀ (by norm_num)]
      exact_mod_cast hdiv2
  -- half-ulp bound on the product rounding, as real inequalities
  have hr1 : 2 * ((m * b : Nat) : ℝ) ≤ 2 * ((c : ℝ) * 7286977268806824) + (b : ℝ) := by
    exact_mod_cast hrc.2
  have hr2 : 2 * ((c : ℝ) * 7286977268806824) ≤ 2 * ((m * b : Nat) : ℝ) + (b : ℝ) := by
    exact_mod_cast hrc.1
  have hbbound : (b : ℝ) * 4503599627370496 ≤ (c : ℝ) * 7286977268806824 := by
    exact_mod_cast hbP
  have hcR : (c : ℝ) ≤ 2251799813685248 := by exact_mod_cast hc51
  have hc0R : (1 : ℝ) ≤ (c : ℝ) := by exact_mod_cast hc1
  have hphi := phiMantissa_close
  have habsphi : |(c : ℝ) * (7286977268806824 / 4503599627370496) -
      (c : ℝ) * goldenRatio| ≤ (c : ℝ) * (1 / 9007199254740992) := by
    rw [← mul_sub, abs_mul, abs_of_nonneg (by positivity : (0 : ℝ) ≤ (c : ℝ))]
    exact mul_le_mul_of_nonneg_left hphi (by positivity)
  have hclose : |x - (c : ℝ) * goldenRatio| < 1 := by
    rw [abs_le] at habsphi
    rw [abs_lt]
    constructor <;> rw [hxdef] <;> nlinarith [hr1, hr2, hbbound, hcR, hc0R]
  have hfd := floor_dist x ((c : ℝ) * goldenRatio) hclose
  rw [hfl] at hfd
  rw [hres]
  exact hfd

theorem calc_capacity_zero (s : Nat) : calc_capacity s 0 = s := rfl

theorem calc_capacity_self (s : Nat) : calc_capacity s s = 32 * s := by
  unfold calc_capacity
  by_cases h : s = 0
  · subst h
    simp
  · rw [if_neg h, if_pos rfl]

theorem add_instance_count (st : InstStore) (d : List Nat) :
    (add_instance st d).count_ = st.count_ + 1 := by
  simp only [add_instance]
  rw [update_instance_count]
  split <;> rfl

theorem add_instance_stride (st : InstStore) (d : List Nat) :
    (add_instance st d).stride = st.stride := by
  simp only [add_instance]
  rw [update_instance_stride]
  split <;> rfl

theorem add_instance_capacity (st : InstStore) (d : List Nat) :
    (add_instance st d).capacity_ =
      if st.capacity_ < (st.count_ + 1).toNat * st.stride then
        calc_capacity st.stride st.capacity_
      else st.capacity_ := by
  simp only [add_instance]
  rw [update_instance_capacity]
  split <;> simp_all

/-- C1 (amended): the growth policy is deterministic and piecewise
defined — `calc_capacity(0) = instance_size()`, `calc_capacity(s) = 32 s`,
the first add on an empty store grows the capacity to exactly `s` and the
second to exactly `32 s`; but for every other capacity `c` the policy
computes `trunc((double)c * phi)` in double precision, which agrees with
the exact `⌊c * φ⌋` only up to one unit in the last place (the bound below,
for `c ≤ 2^51`); the two genuinely differ, see the counterexample. -/
theorem calc_capacity_policy (s c : Nat) (d1 d2 : List Nat) (hs : 0 < s)
    (hc0 : c ≠ 0) (hcs : c ≠ s) (hc : c ≤ 2 ^ 51) :
    calc_capacity s 0 = s ∧
    calc_capacity s s = 32 * s ∧
    (add_instance (mkInstStore [] s) d1).capacity_ = s ∧
    (add_instance (add_instance (mkInstStore [] s) d1) d2).capacity_ = 32 * s ∧
    |(calc_capacity s c : ℤ) - ⌊((c : ℕ) : ℝ) * goldenRatio⌋| ≤ 1 := by
  have hone : (add_instance (mkInstStore [] s) d1).capacity_ = s := by
    rw [add_instance_capacity, if_pos (by simpa [mkInstStore] using hs)]
    exact calc_capacity_zero s
  have htwo : (add_instance (add_instance (mkInstStore [] s) d1) d2).capacity_ = 32 * s := by
    have hst1cnt : (add_instance (mkInstStore [] s) d1).count_ = 1 := by
      rw [add_instance_count]
      rfl
    have hst1str : (add_instance (mkInstStore [] s) d1).stride = s := by
      rw [add_instance_stride]
      rfl
    rw [add_instance_capacity, hone, hst1cnt, hst1str]
    rw [show ((1 : Int) + 1).toNat * s = 2 * s from rfl, if_pos (by omega : s < 2 * s)]
    exact calc_capacity_self s
  refine ⟨calc_capacity_zero s, calc_capacity_self s, hone, htwo, ?_⟩
  unfold calc_capacity
  rw [if_neg hc0, if_neg hcs]
  exact mulPhiTrunc_near c (by omega) hc

/-- Witness for C1, at stride 20 and capacity 100. -/
theorem calc_capacity_policy_witness :
    calc_capacity 20 0 = 20 ∧
    calc_capacity 20 20 = 32 * 20 ∧
    (add_instance (mkInstStore [] 20) [1, 2, 3, 4, 5]).capacity_ = 20 ∧
    (add_instance (add_instance (mkInstStore [] 20) [1, 2, 3, 4, 5])
      [6, 7, 8, 9, 10]).capacity_ = 32 * 20 ∧
    |(calc_capacity 20 100 : ℤ) - ⌊((100 : ℕ) : ℝ) * goldenRatio⌋| ≤ 1 :=
  calc_capacity_policy 20 100 [1, 2, 3, 4, 5] [6, 7, 8, 9, 10]
    (by norm_num) (by norm_num) (by norm_num) (by norm_num)

/-- Counterexample for C1 as stated: at capacity `c = 102334155` (the
Fibonacci number F(40), with stride 20) the double-precision product
rounds up across the integer boundary: the code computes 165580141 while
`⌊c * φ⌋ = 165580140` (certified by the integer square root of `5 c²`),
so `calc_capacity(c) = ⌊c * φ⌋` fails for this `c`. -/
theorem calc_capacity_not_golden_floor :
    ((calc_capacity 20 102334155 : Nat) : ℤ) ≠ ⌊((102334155 : ℕ) : ℝ) * goldenRatio⌋ := by
  rw [golden_floor_eq 102334155 228826126 (by norm_num) (by norm_num)]
  decide

theorem add_instance_GrowInv (st : InstStore) (d : List Nat) (h : GrowInv st) :
    GrowInv (add_instance st d) := by
  obtain ⟨h0, h1, h2, h3⟩ := h
  have hcnt := add_instance_count st d
  have hstr := add_instance_stride st d
  have hcap := add_instance_capacity st d
  have htn : (st.count_ + 1).toNat = st.count_.toNat + 1 := by omega
  have htn2 : (add_instance st d).count_.toNat = st.count_.toNat + 1 := by omega
  by_cases hg : st.capacity_ < (st.count_ + 1).toNat * st.stride
  · rw [if_pos hg] at hcap
    rw [htn] at hg
    have hs1 : 1 ≤ st.stride := by
      rcases Nat.eq_zero_or_pos st.stride with h | h
      · rw [h, Nat.mul_zero] at hg
        omega
      · omega
    rcases h3 with hc0 | hcs | hc32
    · -- growing from capacity 0: the count is 0, the new capacity is one record
      have hk0 : st.count_ = 0 := by
        rcases h2 hc0 with h | h
        · exact h
        · omega
      refine ⟨by omega, ?_, ?_, ?_⟩
      · rw [htn2, hstr, hcap, hc0, calc_capacity_zero, hk0]
        simp
      · intro hz
        rw [hcap, hc0, calc_capacity_zero] at hz
        right
        rw [hstr, hz]
      · right; left
        rw [hcap, hstr, hc0, calc_capacity_zero]
    · -- growing from one record's capacity: the count is at most 1
      have hk1 : st.count_.toNat ≤ 1 := by
        by_contra hgt
        have h2s : 2 * st.stride ≤ st.count_.toNat * st.stride :=
          Nat.mul_le_mul_right _ (by omega)
        rw [hcs] at h1
        have := le_trans h2s h1
        omega
      refine ⟨by omega, ?_, ?_, ?_⟩
      · rw [htn2, hstr, hcap, hcs, calc_capacity_self]
        have : (st.count_.toNat + 1) * st.stride ≤ 2 * st.stride :=
          Nat.mul_le_mul_right _ (by omega)
        omega
      · intro hz
        rw [hcap, hcs, calc_capacity_self] at hz
        right
        rw [hstr]
        omega
      · right; right
        rw [hcap, hstr, hcs, calc_capacity_self]
    · -- golden-ratio growth: the step gains at least one more record
      have hcne0 : st.capacity_ ≠ 0 := by omega
      have hcnes : st.capacity_ ≠ st.stride := by omega
      have hgrow : st.capacity_ + st.stride ≤ calc_capacity st.stride st.capacity_ := by
        unfold calc_capacity
        rw [if_neg hcne0, if_neg hcnes]
        exact mulPhiTrunc_grow st.capacity_ st.stride hs1 hc32
      refine ⟨by omega, ?_, ?_, ?_⟩
      · rw [htn2, hstr, hcap, Nat.succ_mul]
        omega
      · intro hz
        rw [hcap] at hz
        omega
      · right; right
        rw [hcap, hstr]
        omega
  · rw [if_neg hg] at hcap
    rw [htn] at hg
    push_neg at hg
    refine ⟨by omega, ?_, ?_, ?_⟩
    · rw [htn2, hstr, hcap]
      exact hg
    · intro hz
      rw [hcap] at hz
      rcases Nat.eq_zero_or_pos st.stride with h | h
      · right; rw [hstr]; exact h
      · exfalso
        have : 1 * st.stride ≤ (st.count_.toNat + 1) * st.stride :=
          Nat.mul_le_mul_right _ (by omega)
        omega
    · rw [hcap, hstr]
      exact h3

theorem addSeq_GrowInv (ds : List (List Nat)) : ∀ st : InstStore, GrowInv st →
    GrowInv (addSeq st ds) := by
  induction ds with
  | nil => intro st h; exact h
  | cons d rest ih =>
    intro st h
    exact ih (add_instance st d) (add_instance_GrowInv st d h)

theorem addSeq_count (ds : List (List Nat)) : ∀ st : InstStore,
    (addSeq st ds).count_ = st.count_ + ds.length := by
  induction ds with
  | nil => intro st; simp [addSeq]
  | cons d rest ih =>
    intro st
    show (addSeq (add_instance st d) rest).count_ = _
    rw [ih, add_instance_count]
    simp only [List.length_cons]
    omega

/-- C3 (amended): for a store created with no initial data (capacity 0,
count 0 — the class's documented usage), `instance_count()` after the adds
equals the starting count plus the number of adds, and after every one of
the adds the live bytes fit the tracked capacity:
`instance_count() * instance_size() ≤ capacity()`.  (The count equation
needs no hypothesis at all; the invariant genuinely needs the empty start,
see the counterexample.) -/
theorem addSeq_count_and_invariant (st : InstStore) (ds : List (List Nat)) (n : Nat)
    (h0 : st.capacity_ = 0) (hc0 : st.count_ = 0) :
    (addSeq st ds).count_ = st.count_ + ds.length ∧
    (addSeq st (ds.take n)).count_ * ((addSeq st (ds.take n)).stride : Int) ≤
      ((addSeq st (ds.take n)).capacity_ : Int) := by
  refine ⟨addSeq_count ds st, ?_⟩
  have hinv : GrowInv (addSeq st (ds.take n)) := by
    refine addSeq_GrowInv (ds.take n) st ⟨by omega, ?_, fun _ => Or.inl hc0, Or.inl h0⟩
    rw [hc0, h0]
    simp
  obtain ⟨hp0, hp1, _, _⟩ := hinv
  have hcast : ((addSeq st (ds.take n)).count_.toNat : Int) =
      (addSeq st (ds.take n)).count_ := Int.toNat_of_nonneg hp0
  rw [← hcast]
  exact_mod_cast hp1

/-- Witness for C3: two valid 20-byte records added to an empty store give
count 2, and after both adds the live bytes fit the capacity. -/
theorem addSeq_count_and_invariant_witness :
    (addSeq (mkInstStore [] 20) [[1, 2, 3, 4, 5], [6, 7, 8, 9, 10]]).count_ =
      (mkInstStore ([] : List Nat) 20).count_ +
        ([[1, 2, 3, 4, 5], [6, 7, 8, 9, 10]] : List (List Nat)).length ∧
    (addSeq (mkInstStore [] 20) (([[1, 2, 3, 4, 5], [6, 7, 8, 9, 10]] :
        List (List Nat)).take 2)).count_ *
      ((addSeq (mkInstStore [] 20) (([[1, 2, 3, 4, 5], [6, 7, 8, 9, 10]] :
        List (List Nat)).take 2)).stride : Int) ≤
      ((addSeq (mkInstStore [] 20) (([[1, 2, 3, 4, 5], [6, 7, 8, 9, 10]] :
        List (List Nat)).take 2)).capacity_ : Int) :=
  addSeq_count_and_invariant (mkInstStore [] 20)
    [[1, 2, 3, 4, 5], [6, 7, 8, 9, 10]] 2 rfl rfl

/-- Counterexample for C3 as stated: on the store constructed from one
float of initial data with a 20-byte stride (a reachable store), a single
`add_instance` of a perfectly valid 20-byte record leaves
`instance_count() * instance_size() = 20 > 1 = capacity()`: the single
growth step `calc_capacity(1) = trunc(1 * phi) = 1` does not reach one
record's size, so the claimed invariant fails after this operation. -/
theorem add_invariant_counterexample :
    ¬ ((add_instance (mkInstStore [7] 20) [1, 2, 3, 4, 5]).count_ *
        ((add_instance (mkInstStore [7] 20) [1, 2, 3, 4, 5]).stride : Int) ≤
        ((add_instance (mkInstStore [7] 20) [1, 2, 3, 4, 5]).capacity_ : Int)) := by
  decide

/-- C9: the move constructor and move assignment transfer the native
handle: the destination ends with the source's handle, the source is left
with handle 0 (inert), and destroying the moved-from object releases no
handle. -/
theorem move_transfers_handle (v dst : VertexBuffer) :
    (VertexBuffer.moveFrom v).1.id_ = v.id_ ∧
    (VertexBuffer.moveFrom v).2.id_ = 0 ∧
    VertexBuffer.destructorReleases (VertexBuffer.moveFrom v).2 = none ∧
    (VertexBuffer.moveAssign dst v).1.id_ = v.id_ ∧
    (VertexBuffer.moveAssign dst v).2.1.id_ = 0 ∧
    VertexBuffer.destructorReleases (VertexBuffer.moveAssign dst v).2.1 = none := by
  refine ⟨rfl, rfl, ?_, rfl, rfl, ?_⟩ <;>
    simp [VertexBuffer.destructorReleases, VertexBuffer.moveFrom, VertexBuffer.moveAssign]

end rgl
